import Mathlib

/-!
Shallow embedding of the temporal location-matching core of the
exif-geo-tagging scripts (`src/geotag.py`, `src/main.py`,
`src/geo-tagging.py`).

Modelling conventions:
* Python strings are `List Char` (`PyStr`); Python `str.split(sep)`,
  slicing and indexing are translated to explicit list recursions.
* A Python `datetime` is `PyDateTime`: its wall-clock reading as a count
  of microseconds (`usec`) together with an optional UTC offset in
  minutes (`tz`, `none` for timezone-naive values).  `datetime + timedelta`
  adds to the wall clock and keeps `tz`; `replace(tzinfo=None, microsecond=0)`
  drops `tz` and zeroes the sub-second part of the wall clock; naive
  datetimes compare by wall clock.  Timestamps parsed with
  `strptime(..., '%...%z')` are always offset-aware (`AwareTime`).
* Latitude/longitude float values are carried as their source strings:
  the matching core never consumes them numerically.  The numeric
  behaviour of the coordinate encoder `to_deg` is modelled separately
  over `ℚ`.
* Fallible Python code (uncaught `ValueError` / `IndexError` from
  `float(...)`, `int(...)`, tuple unpacking, list indexing) is modelled
  with `Option`, `none` meaning the exception propagates.
-/

/-- Python strings, as lists of characters. -/
abbrev PyStr := List Char

/-- Python `s.split(sep)` for a one-character separator: splits at every
occurrence of `sep`, keeping empty fields; the result is never empty. -/
def pySplit (sep : Char) : PyStr → List PyStr
  | [] => [[]]
  | c :: rest =>
    let r := pySplit sep rest
    if c = sep then [] :: r
    else
      match r with
      | h :: t => (c :: h) :: t
      | [] => [[c]]

/-- Numeric value of a decimal digit character. -/
def digitVal (c : Char) : Int := (c.toNat : Int) - 48

/-- Value of a nonempty all-digit string, or `none`.  Helper for `pyInt?`. -/
def digitsVal? (s : PyStr) : Option Int :=
  if s ≠ [] ∧ s.all Char.isDigit then
    some (s.foldl (fun acc c => 10 * acc + digitVal c) 0)
  else none

/-- Python `int(s)` on the strings reachable in this program: an optional
single sign followed by decimal digits.  `none` models `ValueError`. -/
def pyInt? (s : PyStr) : Option Int :=
  match s with
  | [] => none
  | c :: rest =>
    if c = '+' then digitsVal? rest
    else if c = '-' then (digitsVal? rest).map (fun v => -v)
    else digitsVal? s

/-- Mantissa part of a Python float literal: `digits`, `digits.digits`,
`digits.` or `.digits` (at least one digit overall). -/
def floatMantissaOk (s : PyStr) : Bool :=
  let intPart := s.takeWhile Char.isDigit
  let rest := s.dropWhile Char.isDigit
  match rest with
  | [] => !intPart.isEmpty
  | '.' :: frac => (!intPart.isEmpty || !frac.isEmpty) && frac.all Char.isDigit
  | _ => false

/-- Digit-sequence check for the exponent part of a float literal. -/
def expDigitsOk (ds : PyStr) : Bool := !ds.isEmpty && ds.all Char.isDigit

/-- Mantissa check plus optional `e`/`E` exponent for a float literal. -/
def floatBodyOk (s : PyStr) : Bool :=
  match s.dropWhile (fun c => !(c = 'e' || c = 'E')) with
  | [] => floatMantissaOk s
  | _ :: expo =>
    floatMantissaOk (s.takeWhile (fun c => !(c = 'e' || c = 'E'))) &&
    (match expo with
     | '+' :: ds => expDigitsOk ds
     | '-' :: ds => expDigitsOk ds
     | ds => expDigitsOk ds)

/-- Whether Python `float(s)` succeeds: optional sign, then a decimal
literal with optional fraction and exponent, or `inf`/`infinity`/`nan`
(case-insensitive).  `false` models `ValueError`. -/
def pyFloatAccepts (s : PyStr) : Bool :=
  let body :=
    match s with
    | '+' :: rest => rest
    | '-' :: rest => rest
    | _ => s
  let lower := body.map Char.toLower
  lower == String.toList "inf" || lower == String.toList "infinity" ||
    lower == String.toList "nan" || floatBodyOk body

/-- A Python `datetime`: wall-clock reading in microseconds plus optional
UTC offset in minutes (`none` = timezone-naive). -/
structure PyDateTime where
  usec : Int
  tz : Option Int
deriving DecidableEq

/-- An offset-aware instant, as produced by
`datetime.strptime(s, '%Y-%m-%dT%H:%M:%S.%f%z')`: with `%z` in the
format the parsed value always carries a UTC offset. -/
structure AwareTime where
  usec : Int
  tzMin : Int
deriving DecidableEq

/-- `d.replace(tzinfo=None, microsecond=0)`: drop the offset and zero the
sub-second part of the wall clock. -/
def truncToSecond (d : PyDateTime) : PyDateTime :=
  ⟨d.usec - d.usec % 1000000, none⟩

/-- `d.strftime('%z')`: empty for naive values, otherwise a sign and four
digits (`+HHMM` / `-HHMM`). -/
def pad2 (n : Nat) : PyStr :=
  if n < 10 then ['0', Char.ofNat (48 + n)]
  else [Char.ofNat (48 + n / 10), Char.ofNat (48 + n % 10)]

def strftimeZ (d : PyDateTime) : PyStr :=
  match d.tz with
  | none => []
  | some m =>
    (if 0 ≤ m then '+' else '-') :: (pad2 (m.natAbs / 60) ++ pad2 (m.natAbs % 60))

/-- `src/geotag.py:31` — `parse_geo_point`.  `geo_point.split(':')[1]`
takes the field between the first and second colon (`IndexError`, i.e.
`none`, when the string has no colon); `.split(',')` must then yield
exactly two fields for the tuple unpacking, and both must be accepted by
`float`.  The parsed floats are carried as their source strings. -/
def parse_geo_point (geo_point : PyStr) : Option (PyStr × PyStr) :=
  match pySplit ':' geo_point with
  | _ :: second :: _ =>
    match pySplit ',' second with
    | [lat, lng] =>
      if pyFloatAccepts lat ∧ pyFloatAccepts lng then some (lat, lng) else none
    | _ => none
  | _ => none

/-- `src/geotag.py:37` — `format_offset`: `f"{s[:-2]}:{s[-2:]}"`, i.e.
insert a colon two characters from the end. -/
def format_offset (offset_str : PyStr) : PyStr :=
  offset_str.take (offset_str.length - 2) ++
    ':' :: offset_str.drop (offset_str.length - 2)

/-- `src/geotag.py:42` — `convert_to_utc`.  An absent or empty (falsy)
offset string leaves the wall clock unchanged; otherwise the sign is read
from the first character (`+` gives `+1`, anything else `-1`), the rest
is split on `:` into exactly two `int`-parsed fields, and
`sign * (hours, minutes)` is subtracted from the local time.  Either way
the result is `replace(tzinfo=None, microsecond=0)`.  `none` models the
`ValueError` from `int(...)` or the tuple unpacking. -/
def convert_to_utc (local_time : PyDateTime) (offset_str : Option PyStr) :
    Option PyDateTime :=
  match offset_str with
  | none => some (truncToSecond local_time)
  | some [] => some (truncToSecond local_time)
  | some (c :: rest) =>
    let sign : Int := if c = '+' then 1 else -1
    match pySplit ':' rest with
    | [hs, ms] =>
      match pyInt? hs, pyInt? ms with
      | some h, some m =>
        some (truncToSecond
          ⟨local_time.usec - sign * (h * 3600 + m * 60) * 1000000, local_time.tz⟩)
      | _, _ => none
    | _ => none

/-- `src/geotag.py:12` — the `Location` record.  Coordinates and the
provenance tag keep their Python `None` defaults as `Option`. -/
structure Location where
  timestampUtc : PyDateTime
  latitude : Option PyStr
  longitude : Option PyStr
  maps_type : Option PyStr
deriving DecidableEq

/-- `Location.__lt__`: comparison on `timestampUtc` only (naive datetimes
compare by wall clock). -/
def locationLtBool (a b : Location) : Bool :=
  a.timestampUtc.usec < b.timestampUtc.usec

/-- Ordering key used by `locations.sort(key=lambda l: l.timestampUtc)`. -/
def locLe (a b : Location) : Prop :=
  a.timestampUtc.usec ≤ b.timestampUtc.usec

instance : DecidableRel locLe := fun a b =>
  inferInstanceAs (Decidable (a.timestampUtc.usec ≤ b.timestampUtc.usec))

instance : IsTotal Location locLe :=
  ⟨fun a b => Int.le_total a.timestampUtc.usec b.timestampUtc.usec⟩

instance : IsTrans Location locLe :=
  ⟨fun _ _ _ h h2 => le_trans h h2⟩

/-- One element of a `timelinePath` array: the geo-point string and the
(already `int`-converted) minute offset from the record's start time. -/
structure TimelinePoint where
  point : PyStr
  durationMinutesOffsetFromStartTime : Int
deriving DecidableEq

/-- The three record shapes of the input document, discriminated in the
source by key presence (`'timelinePath' in entry`, elif `'activity'`,
elif `'visit'`); a record matching none of the keys is skipped. -/
inductive EntryBody where
  | timelinePath (pts : List TimelinePoint)
  | activity (startGeo endGeo : PyStr)
  | visit (placeLocation : PyStr)
  | unrecognized
deriving DecidableEq

/-- One raw history record.  `startTime` and `endTime` are the values of
`strptime(entry['startTime'], '%Y-%m-%dT%H:%M:%S.%f%z')` (and likewise
for `endTime`), hence always offset-aware; `endTime` is read only by the
`activity` and `visit` branches. -/
structure RawEntry where
  startTime : AwareTime
  endTime : AwareTime
  body : EntryBody
deriving DecidableEq

/-- View an `AwareTime` as the `PyDateTime` produced by `strptime`. -/
def AwareTime.toDt (t : AwareTime) : PyDateTime := ⟨t.usec, some t.tzMin⟩

/-- `src/geotag.py:102` — `generate_timeline_locations`: for each
sub-point, `start_time_dt + timedelta(minutes=offset)` followed by
`replace(tzinfo=None)` (the offset is dropped, the wall clock — including
its sub-second part — is kept), geo-point parsed, tag `'timeline'`. -/
def generate_timeline_locations (pts : List TimelinePoint)
    (start_time_dt : PyDateTime) : Option (List Location) :=
  match pts with
  | [] => some []
  | p :: rest => do
    let (lat, lng) ← parse_geo_point p.point
    let ts : PyDateTime :=
      ⟨start_time_dt.usec + p.durationMinutesOffsetFromStartTime * 60000000, none⟩
    let l : Location :=
      ⟨ts, some lat, some lng, some (String.toList "timeline")⟩
    let ls ← generate_timeline_locations rest start_time_dt
    pure (l :: ls)

/-- `src/geotag.py:121` — `generate_activity_locations`: both endpoints
are converted with the offset recovered from their own timestamp via
`strftime('%z')` and `format_offset`; the start sample uses the
activity's `start` geo-point, the end sample the `end` geo-point. -/
def generate_activity_locations (startGeo endGeo : PyStr)
    (start_time_dt : PyDateTime) (endTime : AwareTime) :
    Option (List Location) := do
  let offset_str := format_offset (strftimeZ start_time_dt)
  let start_time_utc ← convert_to_utc start_time_dt (some offset_str)
  let (start_lat, start_lng) ← parse_geo_point startGeo
  let (end_lat, end_lng) ← parse_geo_point endGeo
  let end_time_dt := endTime.toDt
  let end_time_utc ← convert_to_utc end_time_dt (some (format_offset (strftimeZ end_time_dt)))
  pure [⟨start_time_utc, some start_lat, some start_lng, some (String.toList "activity_start")⟩,
        ⟨end_time_utc, some end_lat, some end_lng, some (String.toList "activity_end")⟩]

/-- `src/geotag.py:142` — `generate_visit_locations`: two samples sharing
the top candidate's place location, each endpoint converted with its own
recovered offset. -/
def generate_visit_locations (placeLocation : PyStr)
    (start_time_dt : PyDateTime) (endTime : AwareTime) :
    Option (List Location) := do
  let (location_lat, location_lng) ← parse_geo_point placeLocation
  let start_time_utc ← convert_to_utc start_time_dt (some (format_offset (strftimeZ start_time_dt)))
  let end_time_dt := endTime.toDt
  let end_time_utc ← convert_to_utc end_time_dt (some (format_offset (strftimeZ end_time_dt)))
  pure [⟨start_time_utc, some location_lat, some location_lng, some (String.toList "visit_start")⟩,
        ⟨end_time_utc, some location_lat, some location_lng, some (String.toList "visit_end")⟩]

/-- Dispatch on the record shape (`src/geotag.py:91-96`). -/
def processEntry (e : RawEntry) : Option (List Location) :=
  match e.body with
  | .timelinePath pts => generate_timeline_locations pts e.startTime.toDt
  | .activity s en => generate_activity_locations s en e.startTime.toDt e.endTime
  | .visit p => generate_visit_locations p e.startTime.toDt e.endTime
  | .unrecognized => some []

/-- The collection loop of `generate_locations_from_timeline`
(`src/geotag.py:87-96`) before the final sort: records processed in
order, each extending the accumulated list; an uncaught exception from
any record (`none`) aborts the whole call. -/
def collectLocations : List RawEntry → Option (List Location)
  | [] => some []
  | e :: data =>
    match processEntry e, collectLocations data with
    | some ls, some rest => some (ls ++ rest)
    | _, _ => none

/-- `src/geotag.py:83` — `generate_locations_from_timeline`: collect, then
`locations.sort(key=lambda l: l.timestampUtc)`.  Python's `list.sort` is
a stable sort by the key; it is modelled by the stable `insertionSort`
on the same key. -/
def generate_locations_from_timeline (data : List RawEntry) :
    Option (List Location) :=
  match collectLocations data with
  | some locations => some (locations.insertionSort locLe)
  | none => none

/-- The loop of Python's `bisect_left` (`lo, hi = 0, len(a)`;
`while lo < hi: mid = (lo+hi)//2; if a[mid] < x: lo = mid+1 else hi = mid`),
with an explicit fuel argument for structural recursion; `hi - lo`
shrinks every iteration, so `len(a) + 1` fuel always suffices. -/
def bisectPred (ltx : α → Bool) (a : List α) (i : Nat) : Bool :=
  match a[i]? with
  | some v => ltx v
  | none => false

def bisectFuel (ltx : α → Bool) (a : List α) : Nat → Nat → Nat → Nat
  | 0, lo, _ => lo
  | fuel + 1, lo, hi =>
    if lo < hi then
      let mid := (lo + hi) / 2
      if bisectPred ltx a mid
      then bisectFuel ltx a fuel (mid + 1) hi
      else bisectFuel ltx a fuel lo mid
    else lo

/-- Python `bisect.bisect_left(a, x)`, with `ltx v` deciding `v < x`. -/
def bisect_left (a : List α) (ltx : α → Bool) : Nat :=
  bisectFuel ltx a (a.length + 1) 0 a.length

/-- `src/geotag.py:161` — `find_closest_in_time`.  `bisect_left` compares
via `Location.__lt__` (timestamps only).  `locations[0]` on an empty list
models the `IndexError` (the spec's `EmptyTimeline` failure) as `none`;
`locations[-1]` is the last element. -/
def find_closest_in_time (locations : List Location) (a_location : Location) :
    Option Location :=
  let pos := bisect_left locations (fun l => locationLtBool l a_location)
  if pos = 0 then locations[0]?
  else if pos = locations.length then locations[locations.length - 1]?
  else
    match locations[pos - 1]?, locations[pos]? with
    | some before, some after =>
      if after.timestampUtc.usec - a_location.timestampUtc.usec <
          a_location.timestampUtc.usec - before.timestampUtc.usec
      then some after else some before
    | _, _ => none

/-- The index selected by `find_closest_in_time`, computed from the
timestamp sequence alone (timestamps in microseconds, query `q`). -/
def closestIdx (ts : List Int) (q : Int) : Nat :=
  let pos := bisect_left ts (fun t => t < q)
  if pos = 0 then 0
  else if pos = ts.length then ts.length - 1
  else if ts.getD pos 0 - q < q - ts.getD (pos - 1) 0 then pos else pos - 1

/-- Python `int(x)` on a rational: truncation toward zero. -/
def pyTrunc (q : ℚ) : ℤ := if 0 ≤ q then ⌊q⌋ else -⌊-q⌋

/-- Round-half-to-even on a rational, the rounding used by Python's
`round`. -/
def roundHalfEven (r : ℚ) : ℤ :=
  if r - ⌊r⌋ < 1/2 then ⌊r⌋
  else if r - ⌊r⌋ > 1/2 then ⌊r⌋ + 1
  else if 2 ∣ ⌊r⌋ then ⌊r⌋ else ⌊r⌋ + 1

/-- Python `round(x, 5)`: round half-to-even at 5 decimal places. -/
def pyRound5 (x : ℚ) : ℚ := (roundHalfEven (x * 100000) : ℚ) / 100000

namespace Geotag

/-- `src/geotag.py:55` — `to_deg` (also `src/geo-tagging.py:53`): the
hemisphere label is `location[0]` when `value < 0`, else `location[1]`
(so `value == 0` gets the positive label); degrees/minutes by truncation,
seconds rounded to 5 decimal places.  The float arithmetic is modelled
exactly over `ℚ`. -/
def to_deg (value : ℚ) (location : String × String) : ℤ × ℤ × ℚ × String :=
  let loc_value := if value < 0 then location.1 else location.2
  let abs_value := |value|
  let deg := pyTrunc abs_value
  let minu := pyTrunc ((abs_value - deg) * 60)
  let sec := pyRound5 (((abs_value - deg) * 60 - minu) * 60)
  (deg, minu, sec, loc_value)

end Geotag

namespace MainScript

/-- `src/main.py:122` — `to_deg`: same arithmetic as the `geotag.py`
variant but the hemisphere label is the empty string when `value == 0`. -/
def to_deg (value : ℚ) (location : String × String) : ℤ × ℤ × ℚ × String :=
  let loc_value :=
    if value < 0 then location.1
    else if value > 0 then location.2
    else ""
  let abs_value := |value|
  let deg := pyTrunc abs_value
  let t1 := (abs_value - deg) * 60
  let minu := pyTrunc t1
  let sec := pyRound5 ((t1 - minu) * 60)
  (deg, minu, sec, loc_value)

end MainScript

/-- Split a string once, at the first occurrence of `sep`; `none` when
`sep` does not occur.  Used to state the spec's geo-point contract. -/
def splitFirst? (sep : Char) : PyStr → Option (PyStr × PyStr)
  | [] => none
  | c :: rest =>
    if c = sep then some ([], rest)
    else (splitFirst? sep rest).map (fun p => (c :: p.1, p.2))

/-- The geo-point contract exactly as the spec words it: split once on
the first `:`, then split the remainder once on `,`; each half must be
accepted by `float`; fail if either split or either float-parse fails. -/
def claimGeoParse (s : PyStr) : Option (PyStr × PyStr) :=
  match splitFirst? ':' s with
  | none => none
  | some (_, rest) =>
    match splitFirst? ',' rest with
    | none => none
    | some (a, b) =>
      if pyFloatAccepts a ∧ pyFloatAccepts b then some (a, b) else none

/-- What the code actually implements: take the text strictly between the
first and the second `:` (everything after the first colon when there is
no second one), split that field once on the first `,`, require no
further comma, and float-parse both halves. -/
def amendedGeoParse (s : PyStr) : Option (PyStr × PyStr) :=
  match splitFirst? ':' s with
  | none => none
  | some (_, rest) =>
    let fld := rest.takeWhile (fun c => !(c == ':'))
    match splitFirst? ',' fld with
    | none => none
    | some (a, b) =>
      if ',' ∈ b then none
      else if pyFloatAccepts a ∧ pyFloatAccepts b then some (a, b) else none

/-- An offset string of the exact form `±HH:MM` (sign, two digit
characters, colon, two digit characters), as in the spec's timezone
offset contract. -/
def offsetForm (plus : Bool) (c1 c2 c3 c4 : Char) : PyStr :=
  [(if plus then '+' else '-'), c1, c2, ':', c3, c4]

/-- The coordinate-encoder contract exactly as the spec words it:
negative label below zero, positive label above, empty string at zero;
degrees the integer part of the absolute value, minutes the integer part
of the fractional remainder times 60, seconds the next remainder times
60 rounded to 5 decimal places. -/
def to_degSpec (value : ℚ) (location : String × String) : ℤ × ℤ × ℚ × String :=
  let referenceLabel :=
    if value < 0 then location.1 else if 0 < value then location.2 else ""
  let degrees := ⌊|value|⌋
  let fracDeg := |value| - degrees
  let minutes := ⌊fracDeg * 60⌋
  let seconds := pyRound5 ((fracDeg * 60 - minutes) * 60)
  (degrees, minutes, seconds, referenceLabel)

/-! Concrete data used by witnesses and counterexamples. -/

/-- A sample at wall clock 0 (microseconds). -/
def loc0 : Location := ⟨⟨0, none⟩, none, none, none⟩

/-- A sample 120 seconds after `loc0`. -/
def loc120 : Location := ⟨⟨120000000, none⟩, none, none, none⟩

/-- Same timestamp as `loc0`, different coordinates and tag. -/
def loc0b : Location :=
  ⟨⟨0, none⟩, some (String.toList "9.0"), some (String.toList "8.0"),
    some (String.toList "visit_start")⟩

/-- Same timestamp as `loc120`, different coordinates and tag. -/
def loc120b : Location :=
  ⟨⟨120000000, none⟩, some (String.toList "7.0"), some (String.toList "6.0"),
    some (String.toList "visit_end")⟩

/-- A query exactly between `loc0` and `loc120`. -/
def q60 : Location := ⟨⟨60000000, none⟩, none, none, none⟩

/-- A query after both `loc0` and `loc120`. -/
def q200 : Location := ⟨⟨200000000, none⟩, none, none, none⟩

/-- A well-formed `timelinePath` record. -/
def entryGood : RawEntry :=
  ⟨⟨0, 0⟩, ⟨0, 0⟩, .timelinePath [⟨String.toList "geo:1.0,2.0", 0⟩]⟩

/-- A `timelinePath` record whose geo-point string does not parse
(the spec scenario `geo:abc,123`). -/
def entryBad : RawEntry :=
  ⟨⟨0, 0⟩, ⟨0, 0⟩, .timelinePath [⟨String.toList "geo:abc,123", 0⟩]⟩

/-- A `timelinePath` record whose start time carries a 0.5-second
fraction (`usec = 500000`). -/
def entryFrac : RawEntry :=
  ⟨⟨500000, 0⟩, ⟨0, 0⟩, .timelinePath [⟨String.toList "geo:1.0,2.0", 0⟩]⟩

/-- An `activity` record with a 1.5-second start wall clock (UTC offset
zero) and a one-hour end wall clock. -/
def entryAct : RawEntry :=
  ⟨⟨1500000, 0⟩, ⟨3600000000, 0⟩,
    .activity (String.toList "geo:1.0,2.0") (String.toList "geo:3.0,4.0")⟩

/-- The first sample the normalizer produces for `entryAct`. -/
def sAct1 : Location :=
  ⟨⟨1000000, none⟩, some (String.toList "1.0"), some (String.toList "2.0"),
    some (String.toList "activity_start")⟩

/-- The second sample the normalizer produces for `entryAct`. -/
def sAct2 : Location :=
  ⟨⟨3600000000, none⟩, some (String.toList "3.0"), some (String.toList "4.0"),
    some (String.toList "activity_end")⟩

theorem bisectFuel_bounds (ltx : α → Bool) (a : List α) :
    ∀ (fuel lo hi : Nat), lo ≤ hi →
      lo ≤ bisectFuel ltx a fuel lo hi ∧ bisectFuel ltx a fuel lo hi ≤ hi := by
  intro fuel
  induction fuel with
  | zero => intro lo hi h; simp [bisectFuel]; omega
  | succ n ih =>
    intro lo hi h
    rw [bisectFuel]
    dsimp only
    split
    · next hlt =>
      split
      · have := ih ((lo + hi) / 2 + 1) hi (by omega)
        omega
      · have := ih lo ((lo + hi) / 2) (by omega)
        omega
    · omega

theorem bisectFuel_congr (ltx₁ : α → Bool) (a₁ : List α) (ltx₂ : β → Bool)
    (a₂ : List β) (h : ∀ i, bisectPred ltx₁ a₁ i = bisectPred ltx₂ a₂ i) :
    ∀ (fuel lo hi : Nat),
      bisectFuel ltx₁ a₁ fuel lo hi = bisectFuel ltx₂ a₂ fuel lo hi := by
  intro fuel
  induction fuel with
  | zero => intro lo hi; simp [bisectFuel]
  | succ n ih =>
    intro lo hi
    rw [bisectFuel, bisectFuel]
    dsimp only
    rw [h ((lo + hi) / 2)]
    split
    · split
      · exact ih _ _
      · exact ih _ _
    · rfl

theorem bisectFuel_char (ltx : α → Bool) (a : List α)
    (mono : ∀ i j, i ≤ j → bisectPred ltx a j = true → bisectPred ltx a i = true) :
    ∀ (fuel lo hi : Nat), hi - lo ≤ fuel → lo ≤ hi →
      (∀ i, i < lo → bisectPred ltx a i = true) →
      (∀ i, hi ≤ i → bisectPred ltx a i = false) →
      ∀ i, bisectPred ltx a i = true ↔ i < bisectFuel ltx a fuel lo hi := by
  intro fuel
  induction fuel with
  | zero =>
    intro lo hi hfuel hle hlo hhi i
    have : lo = hi := by omega
    subst this
    simp only [bisectFuel]
    constructor
    · intro hp
      by_contra hi2
      have := hhi i (by omega)
      rw [this] at hp
      exact Bool.false_ne_true hp
    · intro hilt; exact hlo i hilt
  | succ n ih =>
    intro lo hi hfuel hle hlo hhi i
    rw [bisectFuel]
    dsimp only
    split
    · next hlt =>
      split
      · next hmid =>
        exact ih ((lo + hi) / 2 + 1) hi (by omega) (by omega)
          (fun j hj => mono j ((lo + hi) / 2) (by omega) hmid)
          hhi i
      · next hmid =>
        refine ih lo ((lo + hi) / 2) (by omega) (by omega) hlo ?_ i
        intro j hj
        by_contra hcon
        have : bisectPred ltx a j = true := by
          cases hb : bisectPred ltx a j
          · exact absurd hb hcon
          · rfl
        exact absurd (mono ((lo + hi) / 2) j hj this) (by simp [hmid])
    · next hnlt =>
      have : lo = hi := by omega
      subst this
      constructor
      · intro hp
        by_contra hi2
        have := hhi i (by omega)
        rw [this] at hp
        exact Bool.false_ne_true hp
      · intro hilt; exact hlo i hilt

theorem bisect_left_le_length (a : List α) (ltx : α → Bool) :
    bisect_left a ltx ≤ a.length :=
  (bisectFuel_bounds ltx a (a.length + 1) 0 a.length (by omega)).2

theorem bisect_left_char (a : List α) (ltx : α → Bool)
    (mono : ∀ i j, i ≤ j → bisectPred ltx a j = true → bisectPred ltx a i = true) :
    ∀ i, bisectPred ltx a i = true ↔ i < bisect_left a ltx := by
  refine bisectFuel_char ltx a mono (a.length + 1) 0 a.length (by omega)
    (by omega) (by omega) ?_
  intro i hi
  simp [bisectPred, List.getElem?_eq_none hi]

theorem bisectPred_loc (T : List Location) (q : Location) (i : Nat) :
    bisectPred (fun l => locationLtBool l q) T i =
      bisectPred (fun t => decide (t < q.timestampUtc.usec))
        (T.map fun l => l.timestampUtc.usec) i := by
  simp only [bisectPred, List.getElem?_map]
  cases T[i]? with
  | none => rfl
  | some l => rfl

theorem bisect_left_loc_eq_map (T : List Location) (q : Location) :
    bisect_left T (fun l => locationLtBool l q) =
      bisect_left (T.map fun l => l.timestampUtc.usec)
        (fun t => decide (t < q.timestampUtc.usec)) := by
  unfold bisect_left
  rw [List.length_map]
  exact bisectFuel_congr _ _ _ _ (bisectPred_loc T q) _ _ _

theorem find_closest_eq_closestIdx (T : List Location) (q : Location) :
    find_closest_in_time T q =
      T[closestIdx (T.map fun l => l.timestampUtc.usec) q.timestampUtc.usec]? := by
  unfold find_closest_in_time closestIdx
  dsimp only
  rw [← bisect_left_loc_eq_map, List.length_map]
  set pos := bisect_left T (fun l => locationLtBool l q) with hposdef
  have hle : pos ≤ T.length := bisect_left_le_length _ _
  by_cases h0 : pos = 0
  · simp [h0]
  · by_cases h1 : pos = T.length
    · simp only [if_neg h0, if_pos h1]
    · have hlt : pos < T.length := by omega
      have hp1 : pos - 1 < T.length := by omega
      rw [if_neg h0, if_neg h1, if_neg h0, if_neg h1]
      have hgd : (T.map fun l => l.timestampUtc.usec).getD pos 0 =
          T[pos].timestampUtc.usec := by
        rw [List.getD_eq_getElem?_getD, List.getElem?_map,
          List.getElem?_eq_getElem hlt]
        rfl
      have hgd1 : (T.map fun l => l.timestampUtc.usec).getD (pos - 1) 0 =
          T[pos - 1].timestampUtc.usec := by
        rw [List.getD_eq_getElem?_getD, List.getElem?_map,
          List.getElem?_eq_getElem hp1]
        rfl
      rw [hgd, hgd1, List.getElem?_eq_getElem hlt, List.getElem?_eq_getElem hp1]
      split
      · next before after heq1 heq2 =>
        injection heq1 with e1
        injection heq2 with e2
        subst e1
        subst e2
        split
        · rw [List.getElem?_eq_getElem hlt]
        · rw [List.getElem?_eq_getElem hp1]
      · next hcon => exact (hcon _ _ rfl rfl).elim

theorem closestIdx_lt_length (ts : List Int) (q : Int) (h : ts ≠ []) :
    closestIdx ts q < ts.length := by
  unfold closestIdx
  dsimp only
  have hlen : 0 < ts.length := List.length_pos.mpr h
  have hle : bisect_left ts (fun t => decide (t < q)) ≤ ts.length :=
    bisect_left_le_length _ _
  split
  · omega
  · split
    · omega
    · split <;> omega

theorem find_closest_isSome (T : List Location) (q : Location) (h : T ≠ []) :
    ∃ l, find_closest_in_time T q = some l := by
  rw [find_closest_eq_closestIdx]
  have hlt := closestIdx_lt_length (T.map fun l => l.timestampUtc.usec)
    q.timestampUtc.usec (by simpa using h)
  rw [List.length_map] at hlt
  exact ⟨_, List.getElem?_eq_getElem hlt⟩

theorem sorted_tsu_le (T : List Location) (hs : T.Pairwise locLe)
    {i j : Nat} (hij : i ≤ j) (hi : i < T.length) (hj : j < T.length) :
    T[i].timestampUtc.usec ≤ T[j].timestampUtc.usec := by
  rcases Nat.eq_or_lt_of_le hij with rfl | hlt
  · exact le_refl _
  · exact List.pairwise_iff_getElem.mp hs i j hi hj hlt

theorem bisectPred_loc_iff (T : List Location) (q : Location) (i : Nat)
    (hi : i < T.length) :
    bisectPred (fun l => locationLtBool l q) T i = true ↔
      T[i].timestampUtc.usec < q.timestampUtc.usec := by
  simp [bisectPred, List.getElem?_eq_getElem hi, locationLtBool]

theorem bisectPred_inbounds {ltx : α → Bool} {a : List α} {i : Nat}
    (h : bisectPred ltx a i = true) : i < a.length := by
  by_contra hcon
  rw [bisectPred, List.getElem?_eq_none (by omega)] at h
  exact Bool.false_ne_true h

theorem loc_mono (T : List Location) (q : Location) (hs : T.Pairwise locLe) :
    ∀ i j, i ≤ j → bisectPred (fun l => locationLtBool l q) T j = true →
      bisectPred (fun l => locationLtBool l q) T i = true := by
  intro i j hij hj
  have hjlen : j < T.length := bisectPred_inbounds hj
  have hilen : i < T.length := by omega
  rw [bisectPred_loc_iff T q j hjlen] at hj
  rw [bisectPred_loc_iff T q i hilen]
  exact lt_of_le_of_lt (sorted_tsu_le T hs hij hilen hjlen) hj

/-- For a sorted timeline, elements strictly left of the bisect position
are strictly below the query, elements at or right of it are at or above
the query. -/
theorem bisect_left_sorted_spec (T : List Location) (q : Location)
    (hs : T.Pairwise locLe) :
    (∀ i (hi : i < T.length), i < bisect_left T (fun l => locationLtBool l q) →
        T[i].timestampUtc.usec < q.timestampUtc.usec) ∧
    (∀ i (hi : i < T.length), bisect_left T (fun l => locationLtBool l q) ≤ i →
        q.timestampUtc.usec ≤ T[i].timestampUtc.usec) := by
  have hchar := bisect_left_char T (fun l => locationLtBool l q) (loc_mono T q hs)
  have hle : bisect_left T (fun l => locationLtBool l q) ≤ T.length :=
    bisect_left_le_length _ _
  constructor
  · intro i hi hlt
    have hp := (hchar i).mpr hlt
    exact (bisectPred_loc_iff T q i hi).mp hp
  · intro i hi hge
    by_contra hcon
    have hp : bisectPred (fun l => locationLtBool l q) T i = true :=
      (bisectPred_loc_iff T q i hi).mpr (by omega)
    have := (hchar i).mp hp
    omega

theorem find_closest_sorted (T : List Location) (q : Location)
    (hs : T.Pairwise locLe) (hne : 0 < T.length) :
    ∃ l, find_closest_in_time T q = some l ∧ l ∈ T ∧
      ∀ l2 ∈ T, |l.timestampUtc.usec - q.timestampUtc.usec| ≤
        |l2.timestampUtc.usec - q.timestampUtc.usec| := by
  obtain ⟨hL, hR⟩ := bisect_left_sorted_spec T q hs
  have hle := bisect_left_le_length T (fun l => locationLtBool l q)
  unfold find_closest_in_time
  dsimp only
  set pos := bisect_left T (fun l => locationLtBool l q) with hposdef
  by_cases h0 : pos = 0
  · rw [if_pos h0]
    refine ⟨T[0], List.getElem?_eq_getElem hne, List.getElem_mem _, ?_⟩
    intro l2 hl2
    obtain ⟨i, hi, rfl⟩ := List.mem_iff_getElem.mp hl2
    have h1 : q.timestampUtc.usec ≤ T[i].timestampUtc.usec := hR i hi (by omega)
    have h2 : q.timestampUtc.usec ≤ T[0].timestampUtc.usec := hR 0 hne (by omega)
    have h3 := sorted_tsu_le T hs (Nat.zero_le i) hne hi
    rw [abs_of_nonneg (by omega), abs_of_nonneg (by omega)]
    omega
  · by_cases h1 : pos = T.length
    · rw [if_neg h0, if_pos h1]
      have hlast : T.length - 1 < T.length := by omega
      refine ⟨T[T.length - 1], List.getElem?_eq_getElem hlast,
        List.getElem_mem _, ?_⟩
      intro l2 hl2
      obtain ⟨i, hi, rfl⟩ := List.mem_iff_getElem.mp hl2
      have h2 : T[i].timestampUtc.usec < q.timestampUtc.usec := hL i hi (by omega)
      have h3 : T[T.length - 1].timestampUtc.usec < q.timestampUtc.usec :=
        hL _ hlast (by omega)
      have h4 := sorted_tsu_le T hs (by omega : i ≤ T.length - 1) hi hlast
      rw [abs_of_nonpos (by omega), abs_of_nonpos (by omega)]
      omega
    · have hplt : pos < T.length := by omega
      have hp1 : pos - 1 < T.length := by omega
      rw [if_neg h0, if_neg h1, List.getElem?_eq_getElem hplt,
        List.getElem?_eq_getElem hp1]
      have hbef : T[pos - 1].timestampUtc.usec < q.timestampUtc.usec :=
        hL _ hp1 (by omega)
      have haft : q.timestampUtc.usec ≤ T[pos].timestampUtc.usec :=
        hR _ hplt (by omega)
      show ∃ l,
        (if T[pos].timestampUtc.usec - q.timestampUtc.usec <
            q.timestampUtc.usec - T[pos - 1].timestampUtc.usec
          then some T[pos] else some T[pos - 1]) = some l ∧ l ∈ T ∧
          ∀ l2 ∈ T, |l.timestampUtc.usec - q.timestampUtc.usec| ≤
            |l2.timestampUtc.usec - q.timestampUtc.usec|
      split
      · next hcond =>
        refine ⟨T[pos], rfl, List.getElem_mem _, ?_⟩
        intro l2 hl2
        obtain ⟨i, hi, rfl⟩ := List.mem_iff_getElem.mp hl2
        by_cases hip : i < pos
        · have hlt2 : T[i].timestampUtc.usec < q.timestampUtc.usec := hL i hi hip
          have hmono := sorted_tsu_le T hs (by omega : i ≤ pos - 1) hi hp1
          rw [abs_of_nonneg (by omega), abs_of_nonpos (by omega)]
          omega
        · have hge2 : q.timestampUtc.usec ≤ T[i].timestampUtc.usec :=
            hR i hi (by omega)
          have hmono := sorted_tsu_le T hs (by omega : pos ≤ i) hplt hi
          rw [abs_of_nonneg (by omega), abs_of_nonneg (by omega)]
          omega
      · next hcond =>
        refine ⟨T[pos - 1], rfl, List.getElem_mem _, ?_⟩
        intro l2 hl2
        obtain ⟨i, hi, rfl⟩ := List.mem_iff_getElem.mp hl2
        by_cases hip : i < pos
        · have hlt2 : T[i].timestampUtc.usec < q.timestampUtc.usec := hL i hi hip
          have hmono := sorted_tsu_le T hs (by omega : i ≤ pos - 1) hi hp1
          rw [abs_of_nonpos (by omega), abs_of_nonpos (by omega)]
          omega
        · have hge2 : q.timestampUtc.usec ≤ T[i].timestampUtc.usec :=
            hR i hi (by omega)
          have hmono := sorted_tsu_le T hs (by omega : pos ≤ i) hplt hi
          rw [abs_of_nonpos (by omega), abs_of_nonneg (by omega)]
          omega

theorem find_closest_head (T : List Location) (q : Location)
    (hs : T.Pairwise locLe) (hne : 0 < T.length)
    (hlow : ∀ l2 ∈ T, q.timestampUtc.usec < l2.timestampUtc.usec) :
    find_closest_in_time T q = some T[0] := by
  obtain ⟨hL, hR⟩ := bisect_left_sorted_spec T q hs
  have h0 : bisect_left T (fun l => locationLtBool l q) = 0 := by
    by_contra hcon
    have := hL 0 hne (by omega)
    have := hlow T[0] (List.getElem_mem _)
    omega
  unfold find_closest_in_time
  dsimp only
  rw [if_pos h0]
  exact List.getElem?_eq_getElem hne

theorem find_closest_last (T : List Location) (q : Location)
    (hs : T.Pairwise locLe) (hne : 0 < T.length)
    (hhigh : ∀ l2 ∈ T, l2.timestampUtc.usec < q.timestampUtc.usec) :
    find_closest_in_time T q = some T[T.length - 1] := by
  obtain ⟨hL, hR⟩ := bisect_left_sorted_spec T q hs
  have hle := bisect_left_le_length T (fun l => locationLtBool l q)
  have h1 : bisect_left T (fun l => locationLtBool l q) = T.length := by
    by_contra hcon
    have hplt : bisect_left T (fun l => locationLtBool l q) < T.length := by omega
    have h2 := hR _ hplt (by omega)
    have h3 := hhigh T[bisect_left T (fun l => locationLtBool l q)]
      (List.getElem_mem _)
    omega
  have h0 : bisect_left T (fun l => locationLtBool l q) ≠ 0 := by
    intro hcon
    have h2 := hR 0 hne (by omega)
    have h3 := hhigh T[0] (List.getElem_mem _)
    omega
  unfold find_closest_in_time
  dsimp only
  rw [if_neg h0, if_pos h1]
  exact List.getElem?_eq_getElem (by omega)

theorem find_closest_tie (T : List Location) (q : Location) (i : Nat)
    (hs : T.Pairwise locLe) (hadj : i + 1 < T.length)
    (hlow : T[i].timestampUtc.usec < q.timestampUtc.usec)
    (hhigh : q.timestampUtc.usec < T[i + 1].timestampUtc.usec)
    (heq : T[i + 1].timestampUtc.usec - q.timestampUtc.usec =
      q.timestampUtc.usec - T[i].timestampUtc.usec) :
    find_closest_in_time T q = some T[i] := by
  have hchar := bisect_left_char T (fun l => locationLtBool l q) (loc_mono T q hs)
  have hpi : bisectPred (fun l => locationLtBool l q) T i = true :=
    (bisectPred_loc_iff T q i (by omega)).mpr hlow
  have hpi1 : bisectPred (fun l => locationLtBool l q) T (i + 1) = false := by
    cases hb : bisectPred (fun l => locationLtBool l q) T (i + 1)
    · rfl
    · have := (bisectPred_loc_iff T q (i + 1) hadj).mp hb
      omega
  have hlo : i < bisect_left T (fun l => locationLtBool l q) := (hchar i).mp hpi
  have hhi : ¬ (i + 1 < bisect_left T (fun l => locationLtBool l q)) := by
    intro hcon
    rw [← hchar (i + 1)] at hcon
    rw [hpi1] at hcon
    exact Bool.false_ne_true hcon
  have hpos : bisect_left T (fun l => locationLtBool l q) = i + 1 := by omega
  have hi2 : i + 1 - 1 < T.length := by omega
  have hii : i < T.length := by omega
  unfold find_closest_in_time
  dsimp only
  rw [hpos, if_neg (by omega), if_neg (by omega),
    List.getElem?_eq_getElem hadj, List.getElem?_eq_getElem hi2]
  show (if T[i + 1].timestampUtc.usec - q.timestampUtc.usec <
      q.timestampUtc.usec - T[i + 1 - 1].timestampUtc.usec
    then some T[i + 1] else some T[i + 1 - 1]) = some T[i]
  have hidx : T[i + 1 - 1] = T[i] := by
    congr 1
  rw [hidx]
  rw [if_neg (by omega)]

theorem collectLocations_none {data : List RawEntry} {e : RawEntry}
    (he : e ∈ data) (hf : processEntry e = none) :
    collectLocations data = none := by
  induction data with
  | nil => cases he
  | cons e2 rest ih =>
    rcases List.mem_cons.mp he with rfl | hmem
    · rw [collectLocations, hf]
    · rw [collectLocations, ih hmem]
      cases processEntry e2 <;> rfl

theorem collectLocations_mem {data : List RawEntry} {C : List Location}
    (h : collectLocations data = some C) :
    ∀ l ∈ C, ∃ e ∈ data, ∃ ls, processEntry e = some ls ∧ l ∈ ls := by
  induction data generalizing C with
  | nil =>
    rw [collectLocations] at h
    injection h with h
    subst h
    intro l hl
    cases hl
  | cons e2 rest ih =>
    rw [collectLocations] at h
    cases hpe : processEntry e2 with
    | none => rw [hpe] at h; exact absurd h (by simp)
    | some ls =>
      rw [hpe] at h
      cases hcr : collectLocations rest with
      | none => rw [hcr] at h; exact absurd h (by simp)
      | some rest2 =>
        rw [hcr] at h
        injection h with h
        subst h
        intro l hl
        rcases List.mem_append.mp hl with hin | hin
        · exact ⟨e2, List.mem_cons_self _ _, ls, hpe, hin⟩
        · obtain ⟨e3, he3, ls3, hp3, hl3⟩ := ih hcr l hin
          exact ⟨e3, List.mem_cons_of_mem _ he3, ls3, hp3, hl3⟩

theorem convert_to_utc_shape {d : PyDateTime} {off : Option PyStr} {v : PyDateTime}
    (h : convert_to_utc d off = some v) :
    v.tz = none ∧ v.usec % 1000000 = 0 := by
  have htr : ∀ w : PyDateTime, (truncToSecond w).tz = none ∧
      (truncToSecond w).usec % 1000000 = 0 := by
    intro w
    refine ⟨rfl, ?_⟩
    show (w.usec - w.usec % 1000000) % 1000000 = 0
    omega
  match off with
  | none =>
    injection h with h
    subst h
    exact htr _
  | some [] =>
    injection h with h
    subst h
    exact htr _
  | some (c :: rest) =>
    rw [convert_to_utc] at h
    rcases hsp : pySplit ':' rest with _ | ⟨hs2, _ | ⟨ms2, _ | ⟨x, xs⟩⟩⟩ <;>
        rw [hsp] at h <;> (try dsimp only at h)
    · exact absurd h (by simp)
    · exact absurd h (by simp)
    · cases hh : pyInt? hs2 <;> rw [hh] at h <;> (try dsimp only at h)
      · exact absurd h (by simp)
      · cases hm : pyInt? ms2 <;> rw [hm] at h <;> (try dsimp only at h)
        · exact absurd h (by simp)
        · injection h with h
          subst h
          exact htr _
    · exact absurd h (by simp)

theorem generate_timeline_locations_shape {pts : List TimelinePoint}
    {d : PyDateTime} {ls : List Location}
    (h : generate_timeline_locations pts d = some ls) :
    ∀ l ∈ ls, l.timestampUtc.tz = none ∧
      l.maps_type = some (String.toList "timeline") := by
  induction pts generalizing ls with
  | nil =>
    rw [generate_timeline_locations] at h
    injection h with h
    subst h
    intro l hl
    cases hl
  | cons p rest ih =>
    rw [generate_timeline_locations] at h
    simp only [Option.pure_def, Option.bind_eq_bind, Option.bind_eq_some] at h
    obtain ⟨⟨lat, lng⟩, hp, ls2, hrest, hls⟩ := h
    injection hls with hls
    subst hls
    intro l hl
    rcases List.mem_cons.mp hl with rfl | hmem
    · exact ⟨rfl, rfl⟩
    · exact ih hrest l hmem

theorem generate_activity_locations_shape {sg eg : PyStr} {d : PyDateTime}
    {et : AwareTime} {ls : List Location}
    (h : generate_activity_locations sg eg d et = some ls) :
    ∀ l ∈ ls, l.timestampUtc.tz = none ∧ l.timestampUtc.usec % 1000000 = 0 ∧
      (l.maps_type = some (String.toList "activity_start") ∨
       l.maps_type = some (String.toList "activity_end")) := by
  rw [generate_activity_locations] at h
  simp only [Option.pure_def, Option.bind_eq_bind, Option.bind_eq_some] at h
  obtain ⟨su, hsu, ⟨slat, slng⟩, hsp, ⟨elat, elng⟩, hep, eu, heu, hls⟩ := h
  injection hls with hls
  subst hls
  obtain ⟨hsu1, hsu2⟩ := convert_to_utc_shape hsu
  obtain ⟨heu1, heu2⟩ := convert_to_utc_shape heu
  intro l hl
  rcases List.mem_cons.mp hl with rfl | hmem
  · exact ⟨hsu1, hsu2, Or.inl rfl⟩
  · rcases List.mem_cons.mp hmem with rfl | hmem2
    · exact ⟨heu1, heu2, Or.inr rfl⟩
    · cases hmem2

theorem generate_visit_locations_shape {pg : PyStr} {d : PyDateTime}
    {et : AwareTime} {ls : List Location}
    (h : generate_visit_locations pg d et = some ls) :
    ∀ l ∈ ls, l.timestampUtc.tz = none ∧ l.timestampUtc.usec % 1000000 = 0 ∧
      (l.maps_type = some (String.toList "visit_start") ∨
       l.maps_type = some (String.toList "visit_end")) := by
  rw [generate_visit_locations] at h
  simp only [Option.pure_def, Option.bind_eq_bind, Option.bind_eq_some] at h
  obtain ⟨⟨plat, plng⟩, hpp, su, hsu, eu, heu, hls⟩ := h
  injection hls with hls
  subst hls
  obtain ⟨hsu1, hsu2⟩ := convert_to_utc_shape hsu
  obtain ⟨heu1, heu2⟩ := convert_to_utc_shape heu
  intro l hl
  rcases List.mem_cons.mp hl with rfl | hmem
  · exact ⟨hsu1, hsu2, Or.inl rfl⟩
  · rcases List.mem_cons.mp hmem with rfl | hmem2
    · exact ⟨heu1, heu2, Or.inr rfl⟩
    · cases hmem2

theorem processEntry_shape {e : RawEntry} {ls : List Location}
    (h : processEntry e = some ls) :
    ∀ l ∈ ls, l.timestampUtc.tz = none ∧
      (l.maps_type ≠ some (String.toList "timeline") →
        l.timestampUtc.usec % 1000000 = 0) := by
  intro l hl
  rw [processEntry] at h
  cases hb : e.body with
  | timelinePath pts =>
    rw [hb] at h
    obtain ⟨h1, h2⟩ := generate_timeline_locations_shape h l hl
    exact ⟨h1, fun hcon => absurd h2 hcon⟩
  | activity sg eg =>
    rw [hb] at h
    obtain ⟨h1, h2, _⟩ := generate_activity_locations_shape h l hl
    exact ⟨h1, fun _ => h2⟩
  | visit pg =>
    rw [hb] at h
    obtain ⟨h1, h2, _⟩ := generate_visit_locations_shape h l hl
    exact ⟨h1, fun _ => h2⟩
  | unrecognized =>
    rw [hb] at h
    injection h with h
    subst h
    cases hl

theorem pySplit_ne_nil (sep : Char) (s : PyStr) : pySplit sep s ≠ [] := by
  induction s with
  | nil => simp [pySplit]
  | cons c rest ih =>
    rw [pySplit]
    try dsimp only
    split
    · simp
    · cases hr : pySplit sep rest with
      | nil => simp
      | cons h t => simp

theorem pySplit_head (sep : Char) (s : PyStr) :
    ∃ t, pySplit sep s = s.takeWhile (fun c => !(c == sep)) :: t := by
  induction s with
  | nil => exact ⟨[], rfl⟩
  | cons c rest ih =>
    rw [pySplit]
    try dsimp only
    by_cases hc : c = sep
    · rw [if_pos hc, List.takeWhile_cons]
      simp [hc]
    · rw [if_neg hc, List.takeWhile_cons]
      obtain ⟨t, ht⟩ := ih
      rw [ht]
      simp only [hc, beq_iff_eq, if_neg hc]
      have : (!(c == sep)) = true := by simp [hc]
      rw [this]
      exact ⟨t, by simp⟩

theorem pySplit_not_mem {sep : Char} {s : PyStr} (h : sep ∉ s) :
    pySplit sep s = [s] := by
  induction s with
  | nil => rfl
  | cons c rest ih =>
    rw [pySplit]
    try dsimp only
    rw [if_neg (fun hc => h (by rw [← hc]; exact List.mem_cons_self c rest)),
      ih (fun hm => h (List.mem_cons_of_mem c hm))]

theorem pySplit_append {sep : Char} {a : PyStr} (b : PyStr) (h : sep ∉ a) :
    pySplit sep (a ++ sep :: b) = a :: pySplit sep b := by
  induction a with
  | nil => simp [pySplit]
  | cons c rest ih =>
    have hc : c ≠ sep := fun hc => h (hc ▸ List.mem_cons_self c rest)
    rw [List.cons_append, pySplit]
    try dsimp only
    rw [if_neg hc, ih (fun hm => h (List.mem_cons_of_mem c hm))]

theorem pySplit_two_of_mem {sep : Char} {s : PyStr} (h : sep ∈ s) :
    ∃ x y t, pySplit sep s = x :: y :: t := by
  induction s with
  | nil => cases h
  | cons c rest ih =>
    rw [pySplit]
    try dsimp only
    by_cases hc : c = sep
    · rw [if_pos hc]
      cases hr : pySplit sep rest with
      | nil => exact absurd hr (pySplit_ne_nil sep rest)
      | cons h2 t => exact ⟨[], h2, t, rfl⟩
    · rw [if_neg hc]
      have hm : sep ∈ rest := by
        rcases List.mem_cons.mp h with heq | hm
        · exact absurd heq.symm hc
        · exact hm
      obtain ⟨x, y, t, hxy⟩ := ih hm
      rw [hxy]
      exact ⟨c :: x, y, t, rfl⟩

theorem splitFirst?_none_iff (sep : Char) (s : PyStr) :
    splitFirst? sep s = none ↔ sep ∉ s := by
  induction s with
  | nil => simp [splitFirst?]
  | cons c rest ih =>
    rw [splitFirst?]
    try dsimp only
    by_cases hc : c = sep
    · rw [if_pos hc]
      simp [hc]
    · rw [if_neg hc]
      cases hr : splitFirst? sep rest with
      | none =>
        have hm : sep ∉ rest := (ih).mp hr
        simp only [Option.map_none, List.mem_cons]
        constructor
        · intro _ hin
          rcases hin with heq | hin
          · exact hc heq.symm
          · exact hm hin
        · intro _
          rfl
      | some p =>
        have hm : sep ∈ rest := by
          by_contra hnm
          rw [ih.mpr hnm] at hr
          exact absurd hr (by simp)
        simp only [Option.map_some, List.mem_cons]
        constructor
        · intro hcon
          exact absurd hcon (by simp)
        · intro hcon
          exact absurd (Or.inr hm) hcon

theorem splitFirst?_eq_some {sep : Char} {s a b : PyStr}
    (h : splitFirst? sep s = some (a, b)) : s = a ++ sep :: b ∧ sep ∉ a := by
  induction s generalizing a b with
  | nil => exact absurd h (by simp [splitFirst?])
  | cons c rest ih =>
    rw [splitFirst?] at h
    try dsimp only at h
    by_cases hc : c = sep
    · rw [if_pos hc] at h
      injection h with h
      injection h with h1 h2
      subst hc
      rw [← h1, ← h2]
      simp
    · rw [if_neg hc] at h
      cases hr : splitFirst? sep rest with
      | none => rw [hr] at h; exact absurd h (by simp)
      | some p =>
        rw [hr] at h
        obtain ⟨p1, p2⟩ := p
        have h2 : (c :: p1, p2) = (a, b) := by
          have := h
          rw [show Option.map (fun p => (c :: p.1, p.2)) (some (p1, p2)) =
            some (c :: p1, p2) from rfl] at this
          exact Option.some_inj.mp this
        injection h2 with h1 h2
        obtain ⟨hseq, hnm⟩ := ih hr
        subst h1
        subst h2
        constructor
        · rw [List.cons_append, ← hseq]
        · intro hm
          rcases List.mem_cons.mp hm with heq | hm2
          · exact hc heq.symm
          · exact hnm hm2

theorem parse_geo_eq_amended (s : PyStr) :
    parse_geo_point s = amendedGeoParse s := by
  rw [parse_geo_point, amendedGeoParse]
  cases hf : splitFirst? ':' s with
  | none =>
    have hnm : ':' ∉ s := (splitFirst?_none_iff ':' s).mp hf
    rw [pySplit_not_mem hnm]
  | some p =>
    obtain ⟨pre, rest⟩ := p
    obtain ⟨hseq, hnm⟩ := splitFirst?_eq_some hf
    rw [hseq, pySplit_append rest hnm]
    obtain ⟨t, ht⟩ := pySplit_head ':' rest
    rw [ht]
    dsimp only
    cases hf2 : splitFirst? ',' (rest.takeWhile fun c => !(c == ':')) with
    | none =>
      have hnm2 : ',' ∉ (rest.takeWhile fun c => !(c == ':')) :=
        (splitFirst?_none_iff _ _).mp hf2
      rw [pySplit_not_mem hnm2]
    | some p2 =>
      obtain ⟨a, b⟩ := p2
      obtain ⟨hseq2, hnma⟩ := splitFirst?_eq_some hf2
      rw [hseq2, pySplit_append b hnma]
      dsimp only
      by_cases hcb : ',' ∈ b
      · obtain ⟨x, y, t2, hxy⟩ := pySplit_two_of_mem hcb
        rw [hxy, if_pos hcb]
      · rw [pySplit_not_mem hcb, if_neg hcb]

theorem digit_ne_colon {c : Char} (h : c.isDigit) : c ≠ ':' := by
  intro hc
  subst hc
  exact absurd h (by decide)

theorem digit_ne_plus {c : Char} (h : c.isDigit) : c ≠ '+' := by
  intro hc
  subst hc
  exact absurd h (by decide)

theorem digit_ne_minus {c : Char} (h : c.isDigit) : c ≠ '-' := by
  intro hc
  subst hc
  exact absurd h (by decide)

theorem digitsVal?_two {c1 c2 : Char} (h1 : c1.isDigit) (h2 : c2.isDigit) :
    digitsVal? [c1, c2] = some (10 * digitVal c1 + digitVal c2) := by
  rw [digitsVal?, if_pos]
  · norm_num [List.foldl]
  · refine ⟨by simp, ?_⟩
    simp [List.all_cons, h1, h2]

theorem pyInt?_two {c1 c2 : Char} (h1 : c1.isDigit) (h2 : c2.isDigit) :
    pyInt? [c1, c2] = some (10 * digitVal c1 + digitVal c2) := by
  rw [pyInt?]
  rw [if_neg (digit_ne_plus h1), if_neg (digit_ne_minus h1)]
  exact digitsVal?_two h1 h2

theorem convert_to_utc_form (local_time : PyDateTime) (plus : Bool)
    (c1 c2 c3 c4 : Char) (h1 : c1.isDigit) (h2 : c2.isDigit)
    (h3 : c3.isDigit) (h4 : c4.isDigit) :
    convert_to_utc local_time (some (offsetForm plus c1 c2 c3 c4)) =
      some (truncToSecond ⟨local_time.usec -
        (if plus then (1 : Int) else -1) *
          ((10 * digitVal c1 + digitVal c2) * 3600 +
            (10 * digitVal c3 + digitVal c4) * 60) * 1000000,
        local_time.tz⟩) := by
  rw [offsetForm, convert_to_utc]
  have hsp : pySplit ':' [c1, c2, ':', c3, c4] = [[c1, c2], [c3, c4]] := by
    have hnm : ':' ∉ [c1, c2] := by
      intro hm
      rcases List.mem_cons.mp hm with heq | hm2
      · exact digit_ne_colon h1 heq.symm
      · rcases List.mem_cons.mp hm2 with heq | hm3
        · exact digit_ne_colon h2 heq.symm
        · cases hm3
    have hnm2 : ':' ∉ [c3, c4] := by
      intro hm
      rcases List.mem_cons.mp hm with heq | hm2
      · exact digit_ne_colon h3 heq.symm
      · rcases List.mem_cons.mp hm2 with heq | hm3
        · exact digit_ne_colon h4 heq.symm
        · cases hm3
    have : ([c1, c2, ':', c3, c4] : PyStr) = [c1, c2] ++ ':' :: [c3, c4] := rfl
    rw [this, pySplit_append _ hnm, pySplit_not_mem hnm2]
  rw [hsp]
  dsimp only
  rw [pyInt?_two h1 h2, pyInt?_two h3 h4]
  dsimp only
  cases plus
  · norm_num [show ¬('-' = '+') from by decide]
  · norm_num

theorem pyTrunc_of_nonneg {q : ℚ} (h : 0 ≤ q) : pyTrunc q = ⌊q⌋ := if_pos h

theorem fract_mul_sixty_nonneg (v : ℚ) : (0 : ℚ) ≤ (|v| - ⌊|v|⌋) * 60 := by
  have h1 : (⌊|v|⌋ : ℚ) ≤ |v| := Int.floor_le _
  have h2 : (0 : ℚ) ≤ |v| - ⌊|v|⌋ := by linarith
  linarith

theorem mainScript_to_deg_eq_spec (v : ℚ) (loc : String × String) :
    MainScript.to_deg v loc = to_degSpec v loc := by
  rw [MainScript.to_deg, to_degSpec]
  rw [pyTrunc_of_nonneg (abs_nonneg v),
    pyTrunc_of_nonneg (fract_mul_sixty_nonneg v)]

theorem geotag_to_deg_eq_spec (v : ℚ) (hv : v ≠ 0) (loc : String × String) :
    Geotag.to_deg v loc = to_degSpec v loc := by
  rw [Geotag.to_deg, to_degSpec]
  rw [pyTrunc_of_nonneg (abs_nonneg v),
    pyTrunc_of_nonneg (fract_mul_sixty_nonneg v)]
  rcases lt_trichotomy v 0 with h | h | h
  · rw [if_pos h, if_pos h]
  · exact absurd h hv
  · rw [if_neg (by linarith), if_neg (by linarith), if_pos h]

theorem geotag_to_deg_zero (loc : String × String) :
    Geotag.to_deg 0 loc = (0, 0, 0, loc.2) := by
  rw [Geotag.to_deg]
  norm_num [pyTrunc, pyRound5, roundHalfEven]

theorem generate_some {data : List RawEntry} {T : List Location}
    (h : generate_locations_from_timeline data = some T) :
    ∃ C, collectLocations data = some C ∧ T = C.insertionSort locLe := by
  rw [generate_locations_from_timeline] at h
  cases hc : collectLocations data with
  | none => rw [hc] at h; exact absurd h (by simp)
  | some C =>
    rw [hc] at h
    injection h with h
    exact ⟨C, rfl, h.symm⟩

/-- C1, counterexample: on the timeline `[loc0, loc120]` (timestamps 0 and
120 s) with query `q60` exactly equidistant from the two adjacent samples,
`find_closest_in_time` returns the earlier (`before`) sample `loc0`, not
the later sample `loc120` as the claim states: the code's strict `<`
comparison resolves the tie toward `before`. -/
theorem C1_counterexample :
    find_closest_in_time [loc0, loc120] q60 = some loc0 ∧
    loc0.timestampUtc.usec < q60.timestampUtc.usec ∧
    q60.timestampUtc.usec < loc120.timestampUtc.usec ∧
    loc120.timestampUtc.usec - q60.timestampUtc.usec =
      q60.timestampUtc.usec - loc0.timestampUtc.usec ∧
    some loc0 ≠ some loc120 := by decide

/-- C1 (amended): for every non-empty sorted timeline and query timestamp
strictly between two adjacent samples exactly equidistant from it, the
nearest-timestamp matcher returns the earlier ("before") sample. -/
theorem C1_tie_prefers_before (T : List Location) (q : Location) (i : Nat)
    (hs : T.Pairwise locLe) (hadj : i + 1 < T.length)
    (hlow : T[i].timestampUtc.usec < q.timestampUtc.usec)
    (hhigh : q.timestampUtc.usec < T[i + 1].timestampUtc.usec)
    (heq : T[i + 1].timestampUtc.usec - q.timestampUtc.usec =
      q.timestampUtc.usec - T[i].timestampUtc.usec) :
    find_closest_in_time T q = some T[i] :=
  find_closest_tie T q i hs hadj hlow hhigh heq

/-- Witness for C1: the amended tie-break at the concrete equidistant
query `q60` on `[loc0, loc120]`. -/
theorem C1_witness : find_closest_in_time [loc0, loc120] q60 = some loc0 :=
  C1_tie_prefers_before [loc0, loc120] q60 0 (by decide) (by decide)
    (by decide) (by decide) (by decide)

/-- C2, counterexample: a document containing the well-formed record
`entryGood` alone normalizes fine, but adding the record `entryBad`
(geo-point `geo:abc,123`, the spec's own scenario) makes the whole call
fail: the record is not dropped and the remaining samples are lost. -/
theorem C2_counterexample :
    generate_locations_from_timeline [entryGood] =
      some [⟨⟨0, none⟩, some (String.toList "1.0"), some (String.toList "2.0"),
        some (String.toList "timeline")⟩] ∧
    generate_locations_from_timeline [entryGood, entryBad] = none := by decide

/-- C2 (amended): a record whose geo-point (or offset) fails to parse
aborts the whole load: the uncaught exception propagates out of
`generate_locations_from_timeline`, so no sequence at all is produced,
instead of the record being dropped with a warning. -/
theorem C2_bad_record_aborts (data : List RawEntry) (e : RawEntry)
    (he : e ∈ data) (hf : processEntry e = none) :
    generate_locations_from_timeline data = none := by
  rw [generate_locations_from_timeline, collectLocations_none he hf]

/-- Witness for C2: the malformed record `entryBad` aborts its document. -/
theorem C2_witness : generate_locations_from_timeline [entryBad] = none :=
  C2_bad_record_aborts [entryBad] entryBad (List.mem_cons_self _ _) (by decide)

/-- C3: on a non-empty sorted timeline `find_closest_in_time` returns an
element of the timeline with minimal absolute timestamp difference to
the query; a query strictly before all samples returns the first sample
and a query strictly after all samples returns the last. -/
theorem C3_nearest_match (T : List Location) (q : Location)
    (hs : T.Pairwise locLe) (hne : 0 < T.length) :
    (∃ l, find_closest_in_time T q = some l ∧ l ∈ T ∧
      ∀ l2 ∈ T, |l.timestampUtc.usec - q.timestampUtc.usec| ≤
        |l2.timestampUtc.usec - q.timestampUtc.usec|) ∧
    ((∀ l2 ∈ T, q.timestampUtc.usec < l2.timestampUtc.usec) →
      find_closest_in_time T q = some T[0]) ∧
    ((∀ l2 ∈ T, l2.timestampUtc.usec < q.timestampUtc.usec) →
      find_closest_in_time T q = some T[T.length - 1]) :=
  ⟨find_closest_sorted T q hs hne,
   fun hlow => find_closest_head T q hs hne hlow,
   fun hhigh => find_closest_last T q hs hne hhigh⟩

/-- Witness for C3: on `[loc0, loc120]` the query `q200` (after all
samples) returns the last sample. -/
theorem C3_witness :
    find_closest_in_time [loc0, loc120] q200 = some loc120 :=
  (C3_nearest_match [loc0, loc120] q200 (by decide) (by decide)).2.2 (by decide)

/-- C4: on the empty timeline the matcher fails (the `locations[0]`
`IndexError`, the spec's `EmptyTimeline`, modelled as `none`) for every
query, and this is the only way it can fail: on any non-empty timeline
it returns a sample. -/
theorem C4_empty_timeline (q : Location) :
    find_closest_in_time [] q = none ∧
    ∀ T : List Location, T ≠ [] → ∃ l, find_closest_in_time T q = some l :=
  ⟨rfl, fun T h => find_closest_isSome T q h⟩

/-- Witness for C4: the empty timeline fails and the singleton timeline
succeeds for the concrete query `q60`. -/
theorem C4_witness :
    find_closest_in_time [] q60 = none ∧
    ∃ l, find_closest_in_time [loc0] q60 = some l :=
  ⟨(C4_empty_timeline q60).1, (C4_empty_timeline q60).2 [loc0] (by decide)⟩

/-- C5, counterexample: the record `entryFrac` has a start time carrying
a 0.5-second fraction; its `timelinePath` sample keeps `usec = 500000`:
only the timezone is stripped in that branch
(`replace(tzinfo=None)`), so the sub-second fraction survives, contrary
to the claim. -/
theorem C5_counterexample :
    generate_locations_from_timeline [entryFrac] =
      some [⟨⟨500000, none⟩, some (String.toList "1.0"),
        some (String.toList "2.0"), some (String.toList "timeline")⟩] ∧
    ¬ ((500000 : Int) % 1000000 = 0) := by decide

/-- C5 (amended): every sample produced by the normalizer has a
timezone-naive timestamp, and every sample from the `activity` and
`visit` branches (i.e. any sample not tagged `timeline`) is truncated to
second precision; `timelinePath` samples keep the start time's
sub-second fraction. -/
theorem C5_naive_and_second_precision (data : List RawEntry)
    (T : List Location) (h : generate_locations_from_timeline data = some T) :
    ∀ l ∈ T, l.timestampUtc.tz = none ∧
      (l.maps_type ≠ some (String.toList "timeline") →
        l.timestampUtc.usec % 1000000 = 0) := by
  obtain ⟨C, hc, rfl⟩ := generate_some h
  intro l hl
  have hlC : l ∈ C := (List.mem_insertionSort locLe).mp hl
  obtain ⟨e, he, ls, hpe, hin⟩ := collectLocations_mem hc l hlC
  exact processEntry_shape hpe l hin

/-- Witness for C5: the `activity_start` sample of `entryAct` is
timezone-naive and truncated to the second. -/
theorem C5_witness :
    sAct1.timestampUtc.tz = none ∧
    (sAct1.maps_type ≠ some (String.toList "timeline") →
      sAct1.timestampUtc.usec % 1000000 = 0) :=
  C5_naive_and_second_precision [entryAct] [sAct1, sAct2] (by decide)
    sAct1 (by decide)

/-- C6, counterexample: on `geo:1.0,2.0:x` the code's parser succeeds
with `(1.0, 2.0)` (it splits on every colon and takes the second field),
while the claimed split-once-on-the-first-colon contract
(`claimGeoParse`) must fail because `2.0:x` is not a float. -/
theorem C6_counterexample :
    parse_geo_point (String.toList "geo:1.0,2.0:x") =
      some (String.toList "1.0", String.toList "2.0") ∧
    claimGeoParse (String.toList "geo:1.0,2.0:x") = none ∧
    parse_geo_point (String.toList "geo:1.0,2.0:x") ≠
      claimGeoParse (String.toList "geo:1.0,2.0:x") := by decide

/-- C6 (amended): for every input string the geo-point parser behaves as
`amendedGeoParse`: it takes the text strictly between the first and
second colon (everything after the first colon when there is no second
one), splits that field once on the first comma requiring no further
comma, and float-parses both halves, failing (`MalformedGeoPoint`)
otherwise. -/
theorem C6_parse_geo_amended (s : PyStr) :
    parse_geo_point s = amendedGeoParse s :=
  parse_geo_eq_amended s

/-- C7: the normalizer's output is sorted ascending by timestamp, and
the sort is stable: the subsequence of samples carrying any fixed
timestamp is exactly the subsequence they formed, in order, in the
collected (pre-sort) sequence. -/
theorem C7_sorted_stable (data : List RawEntry) (T : List Location)
    (h : generate_locations_from_timeline data = some T) :
    (∀ i (hi : i + 1 < T.length),
      T[i].timestampUtc.usec ≤ T[i + 1].timestampUtc.usec) ∧
    ∃ C, collectLocations data = some C ∧ ∀ t : Int,
      T.filter (fun l => l.timestampUtc.usec == t) =
        C.filter (fun l => l.timestampUtc.usec == t) := by
  obtain ⟨C, hc, rfl⟩ := generate_some h
  constructor
  · intro i hi
    have hsorted := List.sorted_insertionSort locLe C
    exact List.pairwise_iff_getElem.mp hsorted i (i + 1) (by omega) hi (by omega)
  · refine ⟨C, hc, fun t => ?_⟩
    have h1 : List.Sublist (C.filter (fun l => l.timestampUtc.usec == t)) C :=
      List.filter_sublist C
    have hp : (C.filter (fun l => l.timestampUtc.usec == t)).Pairwise locLe := by
      apply List.pairwise_of_forall_mem_list
      intro a ha b hb
      have ha2 : a.timestampUtc.usec = t := by
        have := (List.mem_filter.mp ha).2
        simpa using this
      have hb2 : b.timestampUtc.usec = t := by
        have := (List.mem_filter.mp hb).2
        simpa using this
      show a.timestampUtc.usec ≤ b.timestampUtc.usec
      omega
    have h2 := List.sublist_insertionSort hp h1
    have h3 := List.Sublist.filter (fun l => l.timestampUtc.usec == t) h2
    have h4 : (C.filter (fun l => l.timestampUtc.usec == t)).filter
        (fun l => l.timestampUtc.usec == t) =
        C.filter (fun l => l.timestampUtc.usec == t) :=
      List.filter_eq_self.mpr (fun a ha => (List.mem_filter.mp ha).2)
    rw [h4] at h3
    have h5 : List.Perm
        ((C.insertionSort locLe).filter (fun l => l.timestampUtc.usec == t))
        (C.filter (fun l => l.timestampUtc.usec == t)) :=
      (List.perm_insertionSort locLe C).filter _
    exact (h3.eq_of_length h5.length_eq.symm).symm

/-- Witness for C7: the two-sample output of `entryAct` is sorted and
filters down to the collected sequence at each timestamp. -/
theorem C7_witness :
    (∀ i (hi : i + 1 < ([sAct1, sAct2] : List Location).length),
      (([sAct1, sAct2] : List Location)[i]).timestampUtc.usec ≤
        (([sAct1, sAct2] : List Location)[i + 1]).timestampUtc.usec) ∧
    ∃ C, collectLocations [entryAct] = some C ∧ ∀ t : Int,
      ([sAct1, sAct2] : List Location).filter
          (fun l => l.timestampUtc.usec == t) =
        C.filter (fun l => l.timestampUtc.usec == t) :=
  C7_sorted_stable [entryAct] [sAct1, sAct2] (by decide)

/-- C8: for every local timestamp and every offset string of the form
`±HH:MM` (digit characters `c1 c2 : c3 c4`), the converter returns the
local time minus `sign * (HH hours + MM minutes)` with timezone and
sub-second information stripped by truncation (`truncToSecond`); with no
offset string the input is returned as-is, equally stripped. -/
theorem C8_convert_contract :
    (∀ (local_time : PyDateTime) (plus : Bool) (c1 c2 c3 c4 : Char),
      c1.isDigit → c2.isDigit → c3.isDigit → c4.isDigit →
      convert_to_utc local_time (some (offsetForm plus c1 c2 c3 c4)) =
        some (truncToSecond ⟨local_time.usec -
          (if plus then (1 : Int) else -1) *
            ((10 * digitVal c1 + digitVal c2) * 3600 +
              (10 * digitVal c3 + digitVal c4) * 60) * 1000000,
          local_time.tz⟩)) ∧
    (∀ local_time : PyDateTime,
      convert_to_utc local_time none = some (truncToSecond local_time)) :=
  ⟨fun lt p a b c d h1 h2 h3 h4 => convert_to_utc_form lt p a b c d h1 h2 h3 h4,
   fun _ => rfl⟩

/-- Witness for C8: the spec scenario — a local wall clock of 09:00:00
(32400000000 microseconds into the day) with offset `+02:00` converts to
the UTC wall clock 07:00:00 (25200000000 microseconds), naive. -/
theorem C8_witness :
    convert_to_utc ⟨32400000000, some 120⟩ (some (offsetForm true '0' '2' '0' '0')) =
      some ⟨25200000000, none⟩ := by
  rw [C8_convert_contract.1 ⟨32400000000, some 120⟩ true '0' '2' '0' '0'
    (by decide) (by decide) (by decide) (by decide)]
  decide

/-- C9, counterexample: at `value = 0` the `geotag.py` coordinate encoder
returns the positive-hemisphere label `N`, not the empty string the
claim requires (`to_degSpec` is the claim's contract; the `main.py`
variant does return the empty string). -/
theorem C9_counterexample :
    Geotag.to_deg 0 ("S", "N") = (0, 0, 0, "N") ∧
    to_degSpec 0 ("S", "N") = (0, 0, 0, "") ∧
    Geotag.to_deg 0 ("S", "N") ≠ to_degSpec 0 ("S", "N") := by
  refine ⟨geotag_to_deg_zero ("S", "N"), ?_, ?_⟩
  · rw [to_degSpec]
    norm_num [pyRound5, roundHalfEven]
  · rw [geotag_to_deg_zero ("S", "N"), to_degSpec]
    norm_num [pyRound5, roundHalfEven]
    decide

/-- C9 (amended): the `main.py` encoder satisfies the claimed contract
(`to_degSpec`) at every value, including the empty label at zero; the
`geotag.py` / `geo-tagging.py` encoder satisfies it at every nonzero
value but returns the positive-hemisphere label at zero. -/
theorem C9_to_deg_amended :
    (∀ (v : ℚ) (loc : String × String),
      MainScript.to_deg v loc = to_degSpec v loc) ∧
    (∀ (v : ℚ) (loc : String × String), v ≠ 0 →
      Geotag.to_deg v loc = to_degSpec v loc) ∧
    (∀ loc : String × String, Geotag.to_deg 0 loc = (0, 0, 0, loc.2)) :=
  ⟨fun v loc => mainScript_to_deg_eq_spec v loc,
   fun v loc hv => geotag_to_deg_eq_spec v hv loc,
   fun loc => geotag_to_deg_zero loc⟩

/-- Witness for C9: both encoder variants at `value = 1` with the
latitude labels give `(1, 0, 0, "N")`. -/
theorem C9_witness :
    MainScript.to_deg 1 ("S", "N") = (1, 0, 0, "N") ∧
    Geotag.to_deg 1 ("S", "N") = (1, 0, 0, "N") := by
  have h1 := C9_to_deg_amended.1 1 ("S", "N")
  have h2 := C9_to_deg_amended.2.1 1 ("S", "N") (by norm_num)
  have hspec : to_degSpec 1 ("S", "N") = (1, 0, 0, "N") := by
    rw [to_degSpec]
    norm_num [pyRound5, roundHalfEven]
  exact ⟨h1.trans hspec, h2.trans hspec⟩

/-- C10: for two non-empty sorted timelines with pairwise identical
timestamps (coordinates and provenance tags free to differ) and any
query, the matcher selects the sample at the same index in both: the
decision depends only on the timestamps. -/
theorem C10_timestamps_only (T1 T2 : List Location) (q : Location)
    (hs1 : T1.Pairwise locLe) (hs2 : T2.Pairwise locLe)
    (hmap : T1.map (fun l => l.timestampUtc) = T2.map (fun l => l.timestampUtc))
    (hne : T1 ≠ []) :
    ∃ (i : Nat) (h1 : i < T1.length) (h2 : i < T2.length),
      find_closest_in_time T1 q = some T1[i] ∧
      find_closest_in_time T2 q = some T2[i] := by
  have husec : T1.map (fun l => l.timestampUtc.usec) =
      T2.map (fun l => l.timestampUtc.usec) := by
    have h := congrArg (List.map PyDateTime.usec) hmap
    simpa [List.map_map, Function.comp] using h
  have hlen : T1.length = T2.length := by
    have h := congrArg List.length hmap
    simpa using h
  have hlt : closestIdx (T1.map fun l => l.timestampUtc.usec)
      q.timestampUtc.usec < T1.length := by
    have h := closestIdx_lt_length (T1.map fun l => l.timestampUtc.usec)
      q.timestampUtc.usec (by simpa using hne)
    simpa using h
  refine ⟨closestIdx (T1.map fun l => l.timestampUtc.usec) q.timestampUtc.usec,
    hlt, by omega, ?_, ?_⟩
  · rw [find_closest_eq_closestIdx T1 q]
    exact List.getElem?_eq_getElem hlt
  · rw [find_closest_eq_closestIdx T2 q, ← husec]
    exact List.getElem?_eq_getElem (by omega)

/-- Witness for C10: the timelines `[loc0, loc120]` and
`[loc0b, loc120b]` share timestamps but differ in coordinates and tags;
the query `q200` selects index 1 in both. -/
theorem C10_witness :
    ∃ (i : Nat) (h1 : i < ([loc0, loc120] : List Location).length)
      (h2 : i < ([loc0b, loc120b] : List Location).length),
      find_closest_in_time [loc0, loc120] q200 =
        some (([loc0, loc120] : List Location)[i]) ∧
      find_closest_in_time [loc0b, loc120b] q200 =
        some (([loc0b, loc120b] : List Location)[i]) :=
  C10_timestamps_only [loc0, loc120] [loc0b, loc120b] q200
    (by decide) (by decide) (by decide) (by decide)
